import Mathlib

/-!
Verification of the entry-rendering and key-compilation pipeline of
`eccedict.py`.  The Python source builds, for every dictionary row, an HTML
document (as a BeautifulSoup tag tree), mines the `translation` field for
Chinese-script lines to synthesize reverse-lookup documents, serializes all
documents into a corpus text, and finally re-splits that corpus on the
`</html>` boundary marker to build a headword-keyed dictionary used for MDX
archive production.

The embedding below models Python text processing on `List Char` (Python
`str` indexes by codepoint), the soup tag tree as an inductive `Node`, and
each conditional block of `generate_html` as a function producing the list
of nodes it appends.  Fallible steps (the `exch.split(":", 1)` unpacking in
the exchange parser, which raises `ValueError` on a segment without a colon)
are modelled with `Option`.
-/

namespace ECCEDICT

/-! ### Python-style text primitives -/

/-- Python whitespace characters (the ASCII part of `str.strip` / regex `\s`). -/
def pyWs (c : Char) : Bool :=
  c == ' ' || c == '\t' || c == '\n' || c == '\r' || c == '\x0b' || c == '\x0c'

/-- Python `str.strip()` on a codepoint list. -/
def pyStrip (l : List Char) : List Char :=
  ((l.dropWhile pyWs).reverse.dropWhile pyWs).reverse

/-- `hasLead pat s` is true iff `s` starts with `pat`. -/
def hasLead : List Char → List Char → Bool
  | [], _ => true
  | _ :: _, [] => false
  | p :: ps, c :: cs => p == c && hasLead ps cs

/-- Index of the first occurrence of `pat` in `s` (Python `str.find`,
restricted to the found case). -/
def findSub (pat : List Char) : List Char → Option Nat
  | [] => if hasLead pat [] then some 0 else none
  | c :: rest =>
    if hasLead pat (c :: rest) then some 0
    else (findSub pat rest).map (· + 1)

/-- Python `pat in s` substring test. -/
def hasSub (pat s : List Char) : Bool := (findSub pat s).isSome

/-- Worker for `splitOnL`: Python `str.split(sep)` with a non-empty
separator, scanning left to right without overlap.  Structural recursion on
a fuel argument so the kernel can evaluate it; every step consumes at least
one character, so fuel `s.length` always reaches the empty list, and the
fuel-exhausted branch agrees with the empty-list branch there. -/
def splitFuel (sep : List Char) : Nat → List Char → List Char → List (List Char)
  | 0, s, acc => [acc.reverse ++ s]
  | fuel + 1, s, acc =>
    match s with
    | [] => [acc.reverse]
    | c :: rest =>
      if hasLead sep (c :: rest) then
        acc.reverse :: splitFuel sep fuel (rest.drop (sep.length - 1)) []
      else
        splitFuel sep fuel rest (c :: acc)

/-- Python `s.split(sep)` for a non-empty separator `sep`. -/
def splitOnL (sep s : List Char) : List (List Char) := splitFuel sep s.length s []

/-- Python `sep.join(parts)`. -/
def pyJoin (sep : String) : List String → String
  | [] => ""
  | [x] => x
  | x :: y :: rest => x ++ sep ++ pyJoin sep (y :: rest)

/-- Python `s * n` for a string: `n` concatenated copies. -/
def strRep (n : Nat) (s : String) : String := String.join (List.replicate n s)

/-! ### Data model -/

/-- One row of the `stardict` table, the ten columns selected by
`convert_stardictdb_to_txt`.  `collins`, `oxford`, `bnc`, `frq` are integers
in forward rows and the empty string in synthesized reverse rows; both are
falsy exactly when they are `0` here, which is the only way the rendering
code observes them. -/
structure DictRow where
  word : String
  phonetic : String
  definition : String
  translation : String
  collins : Nat
  oxford : Nat
  tag : String
  bnc : Nat
  frq : Nat
  exchange : String
deriving Repr, DecidableEq

/-- A BeautifulSoup node as built by `generate_html`: an element with
attributes and children, a bare text node (`tag.string = ...`), or a void
element (`hr`, `br`, `link`). -/
inductive Node where
  | text (s : String) : Node
  | void (name : String) (attrs : List (String × String)) : Node
  | tag (name : String) (attrs : List (String × String)) (children : List Node) : Node
deriving Repr

/-! ### Field classifier (`POS_PATTERN`) -/

/-- The alternatives of `POS_PATTERN`, in the order they appear in the
regular expression `^(a|na|n|un|v|vt|vi|adj|adv|pron|prep|conj|interj|art|
num|aux|pl|sing|past|pp|pres|ger|det|modal|part|suf|pref|abbr|coll|phr)\.\s*(.*)`. -/
def posCodes : List String :=
  ["a", "na", "n", "un", "v", "vt", "vi", "adj", "adv", "pron", "prep",
   "conj", "interj", "art", "num", "aux", "pl", "sing", "past", "pp",
   "pres", "ger", "det", "modal", "part", "suf", "pref", "abbr", "coll", "phr"]

/-- The capture of `\s*(.*)`: greedy whitespace, then everything up to the
first newline (`.` does not match `\n`). -/
def group2 (rest : List Char) : List Char :=
  (rest.dropWhile pyWs).takeWhile (fun ch => ch != '\n')

/-- `POS_PATTERN.match` followed by the `pos_part`/`trans_part` extraction:
returns `(match.group(1) + ".", match.group(2))` when the pattern matches and
`("", trans)` otherwise.  A Python regex alternation tries the alternatives
left to right with backtracking, so the first catalog code `c` such that the
line starts with `c` followed by a literal dot wins. -/
def posSplitL (trans : List Char) : String × List Char :=
  match posCodes.findSome? (fun c =>
      if hasLead (c.data ++ ['.']) trans then some c else none) with
  | some c => (c ++ ".", group2 (trans.drop (c.data.length + 1)))
  | none => ("", trans)

/-! ### Gloss block (`gdc`) -/

/-- The two-character literal `"\n"` (backslash, `n`) that the Python source
uses as the line delimiter via `split("\\n")`. -/
def nlLit : List Char := ['\\', 'n']

/-- The characters of the web marker `"[网络]"`; `lstrip` treats its string
argument as a set of characters. -/
def webChars : List Char := ['[', '网', '络', ']']

/-- One translation sub-entry (`span.dcb`): the `[网络]` branch, the
pos-label branch, or the plain branch of the translation loop. -/
def transLineNode (trans : List Char) : Node :=
  let pr := posSplitL trans
  let tp := pr.2
  if hasLead webChars tp then
    .tag "span" [("class", "dcb")]
      [.tag "span" [("class", "dnt")] [.text "[网络]"],
       .tag "span" [("class", "dne")]
         [.text (tp.dropWhile (fun c => webChars.contains c)).asString]]
  else if pr.1 ≠ "" then
    .tag "span" [("class", "dcb")]
      [.tag "span" [("class", "pos")] [.text pr.1],
       .tag "span" [("class", "dcn")] [.text tp.asString]]
  else
    .tag "span" [("class", "dcb")]
      [.tag "span" [("class", "dcn")] [.text tp.asString]]

/-- One definition sub-entry (`span.dcb`): the `>` cross-reference branch or
the plain branch of the definition loop. -/
def defLineNode (defi : List Char) : Node :=
  if hasLead ['>'] defi then
    .tag "span" [("class", "dcb")]
      [.tag "span" [("class", "deq")] [.text defi.asString]]
  else
    .tag "span" [("class", "dcb")]
      [.tag "span" [("class", "dcn")] [.text defi.asString]]

/-- The `div.gdc` built from the `translation` field: one sub-entry plus a
`br` per `"\n"`-delimited line. -/
def transGdc (translation : String) : Node :=
  .tag "div" [("class", "gdc")]
    (((splitOnL nlLit translation.data).map
        (fun t => [transLineNode t, .void "br" []])).flatten)

/-- The `div.gdc` built from the `definition` field. -/
def defGdc (definition : String) : Node :=
  .tag "div" [("class", "gdc")]
    (((splitOnL nlLit definition.data).map
        (fun d => [defLineNode d, .void "br" []])).flatten)

/-- The gloss block appended to `div.ctn`: the translation rendering when
`translation` is truthy, else the definition rendering when `definition` is
truthy, else nothing. -/
def gdcNodes (translation definition : String) : List Node :=
  if translation ≠ "" then [transGdc translation]
  else if definition ≠ "" then [defGdc definition]
  else []

/-! ### Header block (`git`) -/

/-- The header block appended to `div.ctn`: present iff
`phonetic or collins or oxford` is truthy; inside it, the bracketed phonetic
(when truthy), then the `-` separator plus the Oxford and Collins star runs
(when either count is truthy). -/
def gitNodes (phonetic : String) (collins oxford : Nat) : List Node :=
  if phonetic ≠ "" ∨ collins ≠ 0 ∨ oxford ≠ 0 then
    [.tag "div" [("class", "git")]
      ((if phonetic ≠ "" then
          [.tag "span" [("class", "ipa")] [.text ("[" ++ phonetic ++ "]")]]
        else [])
       ++ (if collins ≠ 0 ∨ oxford ≠ 0 then
          [.tag "span" [("class", "hnt")] [.text "-"]]
          ++ (if oxford ≠ 0 then
              [.tag "span" [("class", "oxf"), ("title", "Oxford 3000 Keywords")]
                [.text (strRep oxford "※")]]
            else [])
          ++ (if collins ≠ 0 then
              [.tag "span" [("class", "col"), ("title", "Collins Stars")]
                [.text (strRep collins "★")]]
            else [])
        else []))]
  else []

/-! ### Inflection block (`gfm`) -/

/-- Position of the first `:` in a segment. -/
def colonIdx : List Char → Option Nat
  | [] => none
  | c :: rest => if c == ':' then some 0 else (colonIdx rest).map (· + 1)

/-- Python `exch.split(":", 1)`: split at the first colon; the tuple
unpacking raises `ValueError` (modelled as `none`) when there is no colon. -/
def splitColon1 (seg : List Char) : Option (String × String) :=
  match colonIdx seg with
  | none => none
  | some i => some ((seg.take i).asString, (seg.drop (i + 1)).asString)

/-- The loop body of the `exchange_dict` construction: unpack each segment
at its first `:`, failing at the first segment with no colon. -/
def parseSegs : List (List Char) → Option (List (String × String))
  | [] => some []
  | seg :: rest =>
    match splitColon1 seg with
    | none => none
    | some p =>
      match parseSegs rest with
      | none => none
      | some ps => some (p :: ps)

/-- The `exchange_dict` construction: split `exchange` on `/` and unpack
each segment at its first `:`; fails when any segment has no colon. -/
def parseExchange (exchange : String) : Option (List (String × String)) :=
  parseSegs (splitOnL ['/'] exchange.data)

/-- `exchange_dict[code]`: the values recorded for `code`, in insertion
order (the dict maps each key to the list of its segment values). -/
def exchangeValues (segs : List (String × String)) (code : String) : List String :=
  (segs.filter (fun p => p.1 == code)).map (fun p => p.2)

/-- `code in exchange_dict`. -/
def hasCode (segs : List (String × String)) (code : String) : Bool :=
  segs.any (fun p => p.1 == code)

/-- The tense sub-block (`div.fmb`): present iff any of codes `p,d,i,3`
exists; joins their values in that code order. -/
def tenseNodes (segs : List (String × String)) : List Node :=
  if hasCode segs "p" || hasCode segs "d" || hasCode segs "i" || hasCode segs "3" then
    [.tag "div" [("class", "fmb")]
      [.tag "span" [("class", "fnm")] [.text "时态:"],
       .tag "span" [("class", "frm")]
         [.text (pyJoin ", "
           (exchangeValues segs "p" ++ exchangeValues segs "d"
            ++ exchangeValues segs "i" ++ exchangeValues segs "3"))]]]
  else []

/-- The degree sub-block (`div.qmb`): present iff code `r` or `t` exists. -/
def degreeNodes (segs : List (String × String)) : List Node :=
  if hasCode segs "r" || hasCode segs "t" then
    [.tag "div" [("class", "qmb")]
      [.tag "span" [("class", "qnm")] [.text "级别:"],
       .tag "span" [("class", "qrm")]
         [.text (pyJoin ", "
           (exchangeValues segs "r" ++ exchangeValues segs "t"))]]]
  else []

/-- The `match char` decoding of a single inflection-code character; an
unrecognized character contributes nothing. -/
def decodeChar (c : Char) : Option String :=
  match c with
  | 'p' => some "过去式"
  | 'd' => some "过去分词"
  | 'i' => some "现在分词"
  | '3' => some "第三人称单数"
  | 'r' => some "比较级"
  | 't' => some "最高级"
  | 's' => some "复数形式"
  | _ => none

/-- `what_list`: the loop `for key in exchange_dict.get("1", []): for char
in key: ...` decodes every character of every value of code `"1"`. -/
def whatList (segs : List (String × String)) : List String :=
  ((exchangeValues segs "1").map (fun v => v.data.filterMap decodeChar)).flatten

/-- The text of `span.orm` in the base-form sub-block. -/
def ormText (word : String) (segs : List (String × String)) : String :=
  let whatStr := pyJoin "和" (whatList segs)
  let v0 := (exchangeValues segs "0").headD ""
  if whatStr ≠ "" then word ++ " 是 " ++ v0 ++ " 的" ++ whatStr
  else word ++ " 的原型是 " ++ v0

/-- The base-form sub-block (`div.orb`): present iff both codes `0` and `1`
exist. -/
def baseNodes (word : String) (segs : List (String × String)) : List Node :=
  if hasCode segs "0" ∧ hasCode segs "1" then
    [.tag "div" [("class", "orb")]
      [.tag "span" [("class", "onm")] [.text "原型:"],
       .tag "span" [("class", "orm")] [.text (ormText word segs)]]]
  else []

/-- The inflection block appended to `div.ctn`: absent when `exchange` is
falsy; otherwise the `div.gfm` containing the three conditional sub-blocks,
or a failure when the exchange string does not parse. -/
def gfmNodes (word exchange : String) : Option (List Node) :=
  if exchange = "" then some []
  else
    match parseExchange exchange with
    | none => none
    | some segs =>
      some [.tag "div" [("class", "gfm")]
        (tenseNodes segs ++ degreeNodes segs ++ baseNodes word segs)]

/-! ### Frequency block (`frq`) -/

/-- The exam-catalog label string built from the space-separated `tag`. -/
def tagPart (tag : String) : String :=
  let tagList := splitOnL [' '] tag.data
  let mem := fun (s : String) => tagList.contains s.data
  (if mem "zk" then "中" else "") ++ (if mem "gk" then "高" else "")
  ++ (if mem "ky" then "研" else "") ++ (if mem "cet4" then "四" else "")
  ++ (if mem "cet6" then "六" else "") ++ (if mem "toefl" then "托" else "")
  ++ (if mem "ielts" then "雅" else "") ++ (if mem "gre" then "宝" else "")

/-- The frequency block appended to `div.ctn`: present iff
`tag or frq or bnc` is truthy. -/
def frqNodes (tag : String) (bnc frq : Nat) : List Node :=
  if tag ≠ "" ∨ frq ≠ 0 ∨ bnc ≠ 0 then
    [.tag "div"
      [("class", "frq"), ("title", "COCA: " ++ toString frq ++ ", BNC: " ++ toString bnc)]
      [.text (if frq ≠ 0 ∨ bnc ≠ 0 then
          tagPart tag ++ " " ++ toString frq ++ "/" ++ toString bnc
        else tagPart tag)]]
  else []

/-! ### Document skeleton and entry renderer -/

/-- The full document tree produced by `generate_html`, given the already
parsed inflection block `gfm`: the fixed skeleton with the conditional
blocks appended to `div.ctn` in source order. -/
def docTree (r : DictRow) (gfm : List Node) : Node :=
  .tag "html" []
    [.tag "head" []
      [.tag "title" [] [.text r.word],
       .void "link"
         [("href", "concise-enhanced.css"), ("rel", "stylesheet"),
          ("type", "text/css")]],
     .tag "body" []
      [.tag "div" [("class", "bdy"), ("id", "ecdict")]
        [.tag "div" [("class", "ctn"), ("id", "content")]
          ([.tag "div" [("class", "hwd")] [.text r.word],
            .void "hr" [("class", "hrz")]]
           ++ gitNodes r.phonetic r.collins r.oxford
           ++ gdcNodes r.translation r.definition
           ++ gfm
           ++ frqNodes r.tag r.bnc r.frq
           ++ [.void "hr" [("class", "hr2")]])]]]

/-- `generate_html`: `none` exactly when the exchange field fails to parse
(the `ValueError` escaping the function). -/
def generateHtmlTree (r : DictRow) : Option Node :=
  match gfmNodes r.word r.exchange with
  | none => none
  | some gfm => some (docTree r gfm)

/-! ### Reverse-entry extraction -/

/-- `CHINESE_PATTERN.search`: some codepoint lies in `[U+4E00, U+9FFF]`. -/
def hasChinese (l : List Char) : Bool :=
  l.any (fun c => decide (0x4e00 ≤ c.toNat ∧ c.toNat ≤ 0x9fff))

/-- The synthesized row passed to `generate_html` for a reverse entry:
`generate_html(trans_part, "", definition, word, "", "", "", "", "", "")`. -/
def synthRow (transPart : List Char) (definition word : String) : DictRow :=
  { word := transPart.asString, phonetic := "", definition := definition,
    translation := word, collins := 0, oxford := 0, tag := "", bnc := 0,
    frq := 0, exchange := "" }

/-- The document of one reverse entry: the same renderer applied to the
synthesized row (its exchange is empty, so rendering cannot fail). -/
def synthDoc (r : DictRow) (trans : List Char) : Node :=
  docTree (synthRow (posSplitL trans).2 r.definition r.word) []

/-- The reverse documents generated for one row by the loop in
`convert_stardictdb_to_txt`: nothing when `translation` is falsy; otherwise
one document per `"\n"`-delimited line that contains a Chinese codepoint,
rendered from the synthesized row. -/
def reverseDocs (r : DictRow) : List Node :=
  if r.translation = "" then []
  else
    (splitOnL nlLit r.translation.data).filterMap (fun trans =>
      if hasChinese trans then
        generateHtmlTree (synthRow (posSplitL trans).2 r.definition r.word)
      else none)

/-! ### Key compiler (`generate_mdx`) -/

/-- `"<title>"` as codepoints. -/
def ttOpen : List Char := ['<', 't', 'i', 't', 'l', 'e', '>']

/-- `"</title>"` as codepoints. -/
def ttClose : List Char := ['<', '/', 't', 'i', 't', 'l', 'e', '>']

/-- `"</html>"` as codepoints: the document boundary marker. -/
def htmlClose : List Char := ['<', '/', 'h', 't', 'm', 'l', '>']

/-- One iteration of the `for entry in entries` loop of `generate_mdx`:
strip the fragment, skip it when empty, skip it when it has no `"<title>"`,
otherwise slice the headword out of the title span and reattach the
boundary marker. -/
def processFragment (frag : List Char) : Option (String × String) :=
  let e := pyStrip frag
  if e.isEmpty then none
  else if (findSub ttOpen e).isSome then
    let start := (findSub ttOpen e).getD 0 + 7
    let sliced := match findSub ttClose e with
      | some en => (e.take en).drop start
      | none => (e.take (e.length - 1)).drop start
    some ((pyStrip sliced).asString, (e ++ htmlClose).asString)
  else none

/-- The ordered `(headword, document)` pairs that `generate_mdx` extracts
from the corpus text. -/
def extractedEntries (content : String) : List (String × String) :=
  (splitOnL htmlClose content.data).filterMap processFragment

/-- A Python `dict` assignment `d[k] = v`: update the value in place when
the key exists, append a fresh pair otherwise. -/
def dictUpd (k v : String) (d : List (String × String)) : List (String × String) :=
  if d.any (fun p => decide (p.1 = k)) then
    d.map (fun p => if p.1 = k then (k, v) else p)
  else d ++ [(k, v)]

/-- Building the `dictionary` object of `generate_mdx` by successive
assignments. -/
def buildDict (es : List (String × String)) : List (String × String) :=
  es.foldl (fun d p => dictUpd p.1 p.2 d) []

/-- Lookup in the dictionary model (first matching key). -/
def lookupD (k : String) : List (String × String) → Option String
  | [] => none
  | p :: d => if p.1 = k then some p.2 else lookupD k d

/-- The value of the last pair carrying key `k`. -/
def lastVal (k : String) : List (String × String) → Option String
  | [] => none
  | p :: rest =>
    match lastVal k rest with
    | some v => some v
    | none => if p.1 = k then some p.2 else none

/-- The compiled index: the dictionary `generate_mdx` hands to
`MDictWriter`. -/
def compiledIndex (content : String) : List (String × String) :=
  buildDict (extractedEntries content)

/-- The keys of the dictionary model, in insertion order. -/
def keysOf (d : List (String × String)) : List String := d.map (fun p => p.1)

/-! ### Definitions following the specification's wording, for comparison
with the code-derived definitions above -/

/-- Modelled from the spec's wording (for comparison with the code): the
Key Compiler described by the spec "fails with `MalformedDocument` if a
fragment lacks a recognizable title region"; this predicate holds exactly
when that compiler would fail on `content`, i.e. when some fragment is
non-empty after stripping and contains no `"<title>"`. -/
def specKeyCompilerFails (content : String) : Bool :=
  (splitOnL htmlClose content.data).any (fun frag =>
    !(pyStrip frag).isEmpty && !(findSub ttOpen (pyStrip frag)).isSome)

/-- Modelled from the claim's wording (for comparison with the code): the
base-form text obtained by decoding only the FIRST value of exchange code
`"1"`, as the claim states, instead of every value as the code does. -/
def ormTextFirstValueOnly (word : String) (segs : List (String × String)) : String :=
  let labels := ((exchangeValues segs "1").headD "").data.filterMap decodeChar
  let whatStr := pyJoin "和" labels
  let v0 := (exchangeValues segs "0").headD ""
  if whatStr ≠ "" then word ++ " 是 " ++ v0 ++ " 的" ++ whatStr
  else word ++ " 的原型是 " ++ v0

/-! ### Lemmas about the text primitives -/

theorem hasLead_iff (p : List Char) : ∀ s, hasLead p s = true ↔ ∃ t, s = p ++ t := by
  induction p with
  | nil => intro s; simp [hasLead]
  | cons a ps ih =>
    intro s
    cases s with
    | nil => simp [hasLead]
    | cons c cs =>
      simp only [hasLead, Bool.and_eq_true, beq_iff_eq, ih, List.cons_append]
      constructor
      · rintro ⟨rfl, t, rfl⟩
        exact ⟨t, rfl⟩
      · rintro ⟨t, h⟩
        injection h with h1 h2
        exact ⟨h1.symm, t, h2⟩

theorem hasLead_self_append (p t : List Char) : hasLead p (p ++ t) = true :=
  (hasLead_iff p (p ++ t)).mpr ⟨t, rfl⟩

theorem findSub_eq_none_iff (pat : List Char) :
    ∀ s, findSub pat s = none ↔ ∀ i, hasLead pat (s.drop i) = false := by
  intro s
  induction s with
  | nil =>
    by_cases h : hasLead pat [] = true
    · simp [findSub, h]
    · simp only [Bool.not_eq_true] at h
      simp [findSub, h]
  | cons c rest ih =>
    by_cases h : hasLead pat (c :: rest) = true
    · constructor
      · intro hm
        simp [findSub, h] at hm
      · intro hall
        have := hall 0
        simp [h] at this
    · simp only [Bool.not_eq_true] at h
      simp only [findSub, h, Bool.false_eq_true, if_false, Option.map_eq_none', ih]
      constructor
      · intro hall i
        cases i with
        | zero => simpa using h
        | succ j => simpa using hall j
      · intro hall i
        simpa using hall (i + 1)

theorem splitFuel_no_occ (sep : List Char) :
    ∀ fuel s acc, (∀ i, hasLead sep (s.drop i) = false) →
      splitFuel sep fuel s acc = [acc.reverse ++ s] := by
  intro fuel
  induction fuel with
  | zero => intro s acc _; rfl
  | succ fuel ih =>
    intro s acc h
    cases s with
    | nil => simp [splitFuel]
    | cons c rest =>
      have h0 : hasLead sep (c :: rest) = false := by simpa using h 0
      have h' : ∀ i, hasLead sep (rest.drop i) = false := by
        intro i; simpa using h (i + 1)
      simp only [splitFuel, h0, Bool.false_eq_true, if_false]
      rw [ih rest (c :: acc) h']
      simp

theorem splitOnL_no_occ (sep s : List Char) (h : hasSub sep s = false) :
    splitOnL sep s = [s] := by
  have hnone : findSub sep s = none := by
    cases ho : findSub sep s with
    | none => rfl
    | some i => rw [hasSub, ho] at h; simp at h
  have := splitFuel_no_occ sep s.length s [] ((findSub_eq_none_iff sep s).mp hnone)
  simpa [splitOnL] using this

/-! ### Lemmas about the dictionary model -/

theorem lookupD_map_self (k v : String) :
    ∀ d : List (String × String), d.any (fun p => decide (p.1 = k)) = true →
      lookupD k (d.map (fun p => if p.1 = k then (k, v) else p)) = some v := by
  intro d
  induction d with
  | nil => simp
  | cons p rest ih =>
    intro h
    by_cases hp : p.1 = k
    · simp [lookupD, hp]
    · simp only [List.any_cons, Bool.or_eq_true, decide_eq_true_eq, hp, false_or] at h
      simpa [lookupD, hp] using ih h

theorem lookupD_map_ne (k k2 v : String) (hne : k ≠ k2) :
    ∀ d : List (String × String),
      lookupD k (d.map (fun p => if p.1 = k2 then (k2, v) else p)) = lookupD k d := by
  intro d
  induction d with
  | nil => simp
  | cons p rest ih =>
    have hk2 : ¬(k2 = k) := fun h => hne h.symm
    by_cases hp : p.1 = k2
    · simp only [List.map_cons, hp, if_true, lookupD]
      rw [if_neg hk2, if_neg hk2]
      exact ih
    · simp only [List.map_cons, hp, if_false, lookupD]
      by_cases hk : p.1 = k
      · simp [hk]
      · simp [hk, ih]

theorem lookupD_eq_none_of_no_key (k : String) :
    ∀ d : List (String × String), d.any (fun p => decide (p.1 = k)) = false →
      lookupD k d = none := by
  intro d
  induction d with
  | nil => intro _; rfl
  | cons p rest ih =>
    intro h
    simp only [List.any_cons, Bool.or_eq_false_iff, decide_eq_false_iff_not] at h
    simp [lookupD, h.1, ih (by simpa using h.2)]

theorem lookupD_append (k : String) :
    ∀ d l : List (String × String),
      lookupD k (d ++ l)
        = match lookupD k d with
          | some v => some v
          | none => lookupD k l := by
  intro d l
  induction d with
  | nil => simp [lookupD]
  | cons p rest ih =>
    by_cases hp : p.1 = k
    · simp [lookupD, hp]
    · simp [lookupD, hp, ih]

theorem lookupD_dictUpd_self (k v : String) (d : List (String × String)) :
    lookupD k (dictUpd k v d) = some v := by
  unfold dictUpd
  by_cases ha : d.any (fun p => decide (p.1 = k)) = true
  · simp only [ha, if_true]
    exact lookupD_map_self k v d ha
  · simp only [Bool.not_eq_true] at ha
    simp only [ha, Bool.false_eq_true, if_false]
    rw [lookupD_append, lookupD_eq_none_of_no_key k d ha]
    simp [lookupD]

theorem lookupD_dictUpd_ne (k k2 v : String) (hne : k ≠ k2) (d : List (String × String)) :
    lookupD k (dictUpd k2 v d) = lookupD k d := by
  unfold dictUpd
  by_cases ha : d.any (fun p => decide (p.1 = k2)) = true
  · simp only [ha, if_true]
    exact lookupD_map_ne k k2 v hne d
  · simp only [Bool.not_eq_true] at ha
    simp only [ha, Bool.false_eq_true, if_false]
    rw [lookupD_append]
    have hk2 : ¬(k2 = k) := fun h => hne h.symm
    cases hl : lookupD k d with
    | some w => rfl
    | none => simp [lookupD, hk2]

theorem lookupD_build_fold (k : String) :
    ∀ (es : List (String × String)) (d : List (String × String)),
      lookupD k (es.foldl (fun d p => dictUpd p.1 p.2 d) d)
        = match lastVal k es with
          | some v => some v
          | none => lookupD k d := by
  intro es
  induction es with
  | nil => intro d; simp [lastVal]
  | cons p rest ih =>
    intro d
    simp only [List.foldl_cons, lastVal]
    rw [ih (dictUpd p.1 p.2 d)]
    cases hr : lastVal k rest with
    | some v => rfl
    | none =>
      by_cases hp : p.1 = k
      · simp only [hp, if_true]
        exact lookupD_dictUpd_self k p.2 d
      · simp only [hp, if_false]
        exact lookupD_dictUpd_ne k p.1 p.2 (fun h => hp h.symm) d

theorem lastVal_of_no_key (k : String) :
    ∀ l : List (String × String), (∀ p ∈ l, p.1 ≠ k) →
      lastVal k l = none := by
  intro l
  induction l with
  | nil => intro _; rfl
  | cons p rest ih =>
    intro h
    have hr := ih (fun q hq => h q (List.mem_cons_of_mem p hq))
    have hp := h p (List.mem_cons_self p rest)
    simp [lastVal, hr, hp]

theorem lastVal_append_some (k v : String) :
    ∀ (l1 l2 : List (String × String)), lastVal k l2 = some v →
      lastVal k (l1 ++ l2) = some v := by
  intro l1 l2 h
  induction l1 with
  | nil => simpa using h
  | cons p rest ih => simp [lastVal, ih]

theorem keysOf_map_upd (k v : String) (d : List (String × String)) :
    keysOf (d.map (fun p => if p.1 = k then (k, v) else p)) = keysOf d := by
  unfold keysOf
  rw [List.map_map]
  apply List.map_congr_left
  intro p _
  by_cases hp : p.1 = k
  · simp [hp]
  · simp [hp]

theorem nodup_keysOf_dictUpd (k v : String) (d : List (String × String))
    (h : (keysOf d).Nodup) : (keysOf (dictUpd k v d)).Nodup := by
  unfold dictUpd
  by_cases ha : d.any (fun p => decide (p.1 = k)) = true
  · simpa [ha, keysOf_map_upd] using h
  · simp only [Bool.not_eq_true] at ha
    have hnk : k ∉ keysOf d := by
      intro hk
      obtain ⟨p, hp, hpk⟩ := List.mem_map.mp hk
      have := (List.any_eq_false.mp ha) p hp
      simp [hpk] at this
    simp only [ha, Bool.false_eq_true, if_false, keysOf, List.map_append]
    rw [List.nodup_append]
    refine ⟨h, by simp, ?_⟩
    simp only [List.map_cons, List.map_nil]
    intro x hx
    simp only [List.mem_singleton]
    intro hxk
    exact hnk (hxk ▸ hx)

theorem nodup_keysOf_build :
    ∀ (es : List (String × String)) (d : List (String × String)),
      (keysOf d).Nodup → (keysOf (es.foldl (fun d p => dictUpd p.1 p.2 d) d)).Nodup := by
  intro es
  induction es with
  | nil => intro d h; simpa using h
  | cons p rest ih =>
    intro d h
    simp only [List.foldl_cons]
    exact ih (dictUpd p.1 p.2 d) (nodup_keysOf_dictUpd p.1 p.2 d h)

/-! ### Lemmas about the field classifier -/

theorem posCodes_no_dot : ∀ c ∈ posCodes, '.' ∉ c.data := by decide

theorem dot_split_unique :
    ∀ (a : List Char), '.' ∉ a → ∀ (b : List Char), '.' ∉ b →
      ∀ t1 t2, a ++ '.' :: t1 = b ++ '.' :: t2 → a = b := by
  intro a
  induction a with
  | nil =>
    intro _ b hb t1 t2 h
    cases b with
    | nil => rfl
    | cons x xs =>
      rw [List.nil_append, List.cons_append] at h
      injection h with h1 _
      exact absurd (h1 ▸ List.mem_cons_self x xs) hb
  | cons y ys ih =>
    intro ha b hb t1 t2 h
    cases b with
    | nil =>
      rw [List.cons_append, List.nil_append] at h
      injection h with h1 _
      exact absurd (h1 ▸ List.mem_cons_self y ys) ha
    | cons x xs =>
      rw [List.cons_append, List.cons_append] at h
      injection h with h1 h2
      have hys : '.' ∉ ys := fun hm => ha (List.mem_cons_of_mem y hm)
      have hxs : '.' ∉ xs := fun hm => hb (List.mem_cons_of_mem x hm)
      rw [h1, ih hys xs hxs t1 t2 h2]

theorem findSome?_of_unique {α β : Type} (l : List α) (f : α → Option β) (c : α) (v : β)
    (hc : c ∈ l) (hfc : f c = some v)
    (huniq : ∀ x ∈ l, (f x).isSome = true → f x = some v) :
    l.findSome? f = some v := by
  induction l with
  | nil => cases hc
  | cons h t ih =>
    cases hfh : f h with
    | some w =>
      have hw : f h = some v := huniq h (List.mem_cons_self h t) (by simp [hfh])
      rw [List.findSome?_cons, hfh]
      rw [hfh] at hw
      exact hw
    | none =>
      have hch : c ≠ h := fun he => by rw [he, hfh] at hfc; cases hfc
      have hct : c ∈ t := by
        cases List.mem_cons.mp hc with
        | inl he => exact absurd he hch
        | inr ht => exact ht
      rw [List.findSome?_cons, hfh]
      exact ih hct (fun x hx hsx => huniq x (List.mem_cons_of_mem h hx) hsx)

theorem str_data_inj {a b : String} (h : a.data = b.data) : a = b := by
  cases a
  cases b
  exact congrArg String.mk h

/-! ### Lemmas about the exchange parser -/

theorem colonIdx_eq_none_iff : ∀ seg : List Char,
    colonIdx seg = none ↔ ∀ ch ∈ seg, ch ≠ ':' := by
  intro seg
  induction seg with
  | nil => simp [colonIdx]
  | cons c rest ih =>
    by_cases hc : (c == ':') = true
    · have : c = ':' := by simpa using hc
      simp [colonIdx, hc, this]
    · simp only [Bool.not_eq_true] at hc
      have hne : c ≠ ':' := by simpa using hc
      simp only [colonIdx, hc, Bool.false_eq_true, if_false, Option.map_eq_none', ih]
      constructor
      · intro hall ch hch
        cases List.mem_cons.mp hch with
        | inl he => exact he ▸ hne
        | inr ht => exact hall ch ht
      · intro hall ch hch
        exact hall ch (List.mem_cons_of_mem c hch)

theorem splitColon1_eq_none_iff (seg : List Char) :
    splitColon1 seg = none ↔ ∀ ch ∈ seg, ch ≠ ':' := by
  rw [← colonIdx_eq_none_iff]
  unfold splitColon1
  cases hidx : colonIdx seg with
  | none => simp
  | some i => simp

theorem parseSegs_eq_none_iff : ∀ l : List (List Char),
    parseSegs l = none ↔ ∃ seg ∈ l, splitColon1 seg = none := by
  intro l
  induction l with
  | nil => simp [parseSegs]
  | cons seg rest ih =>
    cases hs : splitColon1 seg with
    | none =>
      constructor
      · intro _
        exact ⟨seg, List.mem_cons_self seg rest, hs⟩
      · intro _
        simp [parseSegs, hs]
    | some p =>
      cases hr : parseSegs rest with
      | none =>
        constructor
        · intro _
          obtain ⟨seg2, hseg2, hn2⟩ := ih.mp hr
          exact ⟨seg2, List.mem_cons_of_mem seg hseg2, hn2⟩
        · intro _
          simp [parseSegs, hs, hr]
      | some ps =>
        constructor
        · intro h
          simp [parseSegs, hs, hr] at h
        · rintro ⟨seg2, hseg2, hn2⟩
          exfalso
          cases List.mem_cons.mp hseg2 with
          | inl he => rw [he, hs] at hn2; exact Option.noConfusion hn2
          | inr ht =>
            have := ih.mpr ⟨seg2, ht, hn2⟩
            rw [hr] at this
            exact Option.noConfusion this

/-! ### Lemmas about joining and rendering -/

theorem str_eq_empty_iff (s : String) : s = "" ↔ s.data = [] := by
  constructor
  · intro h; rw [h]
  · intro h
    apply str_data_inj
    simpa using h

theorem pyJoin_ne_empty (sep : String) :
    ∀ l : List String, (∀ s ∈ l, s ≠ "") → l ≠ [] → pyJoin sep l ≠ "" := by
  intro l h hne
  match l with
  | [] => exact absurd rfl hne
  | [x] =>
    simpa [pyJoin] using h x (List.mem_cons_self x [])
  | x :: y :: rest =>
    have hx : x ≠ "" := h x (List.mem_cons_self x (y :: rest))
    intro hcontra
    rw [str_eq_empty_iff] at hcontra
    simp only [pyJoin, String.data_append, List.append_eq_nil] at hcontra
    exact hx (str_eq_empty_iff x |>.mpr hcontra.1.1)

theorem whatList_mem_ne_empty (segs : List (String × String)) :
    ∀ s ∈ whatList segs, s ≠ "" := by
  intro s hs
  unfold whatList at hs
  rw [List.mem_flatten] at hs
  obtain ⟨l, hl, hsl⟩ := hs
  rw [List.mem_map] at hl
  obtain ⟨v, _, rfl⟩ := hl
  rw [List.mem_filterMap] at hsl
  obtain ⟨c, _, hdc⟩ := hsl
  revert hdc
  unfold decodeChar
  split <;> intro hdc <;> first
    | (exact Option.noConfusion hdc)
    | (injection hdc with h; subst h; decide)

/-- The renderer never fails on a synthesized reverse row: its exchange
field is empty. -/
theorem generateHtmlTree_synth (r : DictRow) (trans : List Char) :
    generateHtmlTree (synthRow (posSplitL trans).2 r.definition r.word)
      = some (synthDoc r trans) := rfl

theorem filterMap_guard_eq {α β : Type} (p : α → Bool) (F : α → Option β) (G : α → β)
    (hFG : ∀ a, F a = some (G a)) :
    ∀ l : List α,
      l.filterMap (fun a => if p a then F a else none) = (l.filter p).map G := by
  intro l
  induction l with
  | nil => rfl
  | cons a rest ih =>
    by_cases hp : p a = true
    · simp [List.filterMap_cons, hp, hFG a, List.filter_cons, ih]
    · simp only [Bool.not_eq_true] at hp
      simp [List.filterMap_cons, hp, List.filter_cons, ih]

/-! ### Claim theorems -/

/-- C1. Key Compiler last-write-wins: when the entries extracted from a
corpus contain two documents with the same title key, the earlier at some
position `i` and the later at position `j` (the positions being witnessed by
the list decomposition `l1 ++ (k, di) :: l2 ++ (k, dj) :: l3`, with no
further occurrence of the key after `j`), the compiled index maps the key to
the document at position `j`, and the keys of the compiled index contain no
duplicate. -/
theorem claim1_last_write_wins (content : String) (k di dj : String)
    (l1 l2 l3 : List (String × String))
    (hes : extractedEntries content = l1 ++ (k, di) :: l2 ++ (k, dj) :: l3)
    (h3 : ∀ p ∈ l3, p.1 ≠ k) :
    lookupD k (compiledIndex content) = some dj ∧
      (keysOf (compiledIndex content)).Nodup := by
  constructor
  · unfold compiledIndex buildDict
    rw [hes, lookupD_build_fold]
    have hl3 : lastVal k l3 = none := lastVal_of_no_key k l3 h3
    have hj : lastVal k ((k, dj) :: l3) = some dj := by simp [lastVal, hl3]
    have h2 : lastVal k (l2 ++ (k, dj) :: l3) = some dj :=
      lastVal_append_some k dj l2 _ hj
    have h1 : lastVal k ((k, di) :: (l2 ++ (k, dj) :: l3)) = some dj := by
      simp [lastVal, h2]
    have hall : lastVal k (l1 ++ (k, di) :: (l2 ++ (k, dj) :: l3)) = some dj :=
      lastVal_append_some k dj l1 _ h1
    rw [show l1 ++ (k, di) :: l2 ++ (k, dj) :: l3
          = l1 ++ (k, di) :: (l2 ++ (k, dj) :: l3) from by simp, hall]
  · exact nodup_keysOf_build _ [] (by simp [keysOf])

/-- Witness for C1: a corpus of two documents with the same title key
`"k"`; the compiled index maps `"k"` to the later document. -/
theorem claim1_last_write_wins_witness :
    lookupD "k" (compiledIndex
        "<title>k</title>A</html><title>k</title>B</html>")
      = some "<title>k</title>B</html>" ∧
    (keysOf (compiledIndex
        "<title>k</title>A</html><title>k</title>B</html>")).Nodup :=
  claim1_last_write_wins "<title>k</title>A</html><title>k</title>B</html>"
    "k" "<title>k</title>A</html>" "<title>k</title>B</html>" [] [] []
    (by decide) (by simp)

/-- C2 counterexample: the corpus `"junk</html>"` has the single non-empty
fragment `"junk"` with no title region, so the spec's Key Compiler (which
must fail with `MalformedDocument` there) fails on it; the code's
`generate_mdx` is total, raises nothing, and silently drops the fragment,
compiling the empty index. -/
theorem claim2_counterexample :
    specKeyCompilerFails "junk</html>" = true ∧
    extractedEntries "junk</html>" = [] ∧
    compiledIndex "junk</html>" = [] := by
  refine ⟨by decide, by decide, by decide⟩

/-- C2 amended: a fragment that is non-empty after stripping and lacks a
title region is silently skipped by `generate_mdx` — it contributes no entry
and no error is raised (the compiler is a total function). -/
theorem claim2_malformed_silently_dropped (frag : List Char)
    (hne : pyStrip frag ≠ []) (hnt : findSub ttOpen (pyStrip frag) = none) :
    processFragment frag = none := by
  unfold processFragment
  rw [if_neg (by simpa [List.isEmpty_iff] using hne)]
  rw [if_neg (by simp [hnt])]

/-- Witness for the amended C2: the fragment `"junk"`. -/
theorem claim2_malformed_silently_dropped_witness :
    processFragment ['j', 'u', 'n', 'k'] = none :=
  claim2_malformed_silently_dropped ['j', 'u', 'n', 'k'] (by decide) (by decide)

/-- C3. Reverse-entry extraction: for every row, the reverse documents are
exactly one per `"\n"`-delimited translation line containing a codepoint in
`[U+4E00, U+9FFF]` (lines without such a codepoint produce none), and each
is rendered by the same renderer (`generate_html`) applied to the
synthesized row `synthRow` — word := the line minus its pos prefix,
phonetic := "", definition := the row's definition, translation := the
row's word, all other fields empty. -/
theorem claim3_reverse_extraction (r : DictRow) :
    reverseDocs r
      = ((splitOnL nlLit r.translation.data).filter hasChinese).map (synthDoc r) ∧
    ∀ trans : List Char,
      generateHtmlTree (synthRow (posSplitL trans).2 r.definition r.word)
        = some (synthDoc r trans) := by
  refine ⟨?_, fun trans => generateHtmlTree_synth r trans⟩
  unfold reverseDocs
  by_cases ht : r.translation = ""
  · rw [if_pos ht, ht]
    have hsplit : (splitOnL nlLit ("" : String).data).filter hasChinese = [] := by
      decide
    rw [hsplit]
    simp
  · rw [if_neg ht]
    exact filterMap_guard_eq hasChinese _ (synthDoc r)
      (fun t => generateHtmlTree_synth r t) _

/-- C4. Gloss block priority: when `translation` is non-empty the gloss
block is exactly the translation rendering (and does not depend on
`definition` at all); when `translation` is empty and `definition` is
non-empty it is exactly the definition rendering; when both are empty it is
absent. -/
theorem claim4_gloss_priority (t d : String) :
    (t ≠ "" → gdcNodes t d = [transGdc t] ∧ ∀ d2, gdcNodes t d2 = gdcNodes t d) ∧
    (t = "" → d ≠ "" → gdcNodes t d = [defGdc d]) ∧
    (t = "" → d = "" → gdcNodes t d = []) := by
  refine ⟨fun ht => ⟨by simp [gdcNodes, ht], fun d2 => by simp [gdcNodes, ht]⟩,
    fun ht hd => by simp [gdcNodes, ht, hd],
    fun ht hd => by simp [gdcNodes, ht, hd]⟩

/-- Witness for C4 at concrete fields. -/
theorem claim4_gloss_priority_witness :
    gdcNodes "n. 猫" "x" = [transGdc "n. 猫"] ∧
    gdcNodes "" "x" = [defGdc "x"] ∧
    gdcNodes "" "" = [] :=
  ⟨((claim4_gloss_priority "n. 猫" "x").1 (by decide)).1,
   (claim4_gloss_priority "" "x").2.1 rfl (by decide),
   (claim4_gloss_priority "" "").2.2 rfl rfl⟩

/-- C5. Field Classifier longest match: for every gloss line that begins
with a catalog code `c` followed by `"."` and a space, the classifier
returns exactly `c ++ "."` as the pos label and the remainder (after the
greedy whitespace of `\s*`, up to a newline, as `(.*)` captures) as the
text.  In particular a longer code such as `"vt"` is never masked by the
shorter `"v"` that precedes it in the alternation: no other catalog code can
match, because codes contain no dot. -/
theorem claim5_pos_longest_match (c : String) (rest : List Char) (hc : c ∈ posCodes) :
    posSplitL (c.data ++ '.' :: ' ' :: rest)
      = (c ++ ".", (rest.dropWhile pyWs).takeWhile (fun ch => ch != '\n')) := by
  have hnd : '.' ∉ c.data := posCodes_no_dot c hc
  have hassoc : c.data ++ '.' :: ' ' :: rest = (c.data ++ ['.']) ++ (' ' :: rest) := by
    simp
  have hlead : hasLead (c.data ++ ['.']) (c.data ++ '.' :: ' ' :: rest) = true := by
    rw [hassoc]
    exact hasLead_self_append _ _
  have hfind :
      posCodes.findSome? (fun x =>
          if hasLead (x.data ++ ['.']) (c.data ++ '.' :: ' ' :: rest) then some x
          else none)
        = some c := by
    apply findSome?_of_unique posCodes _ c c hc
    · simp [hlead]
    · intro x hx hsx
      by_cases hlx :
          hasLead (x.data ++ ['.']) (c.data ++ '.' :: ' ' :: rest) = true
      · obtain ⟨t, ht⟩ := (hasLead_iff _ _).mp hlx
        have hx2 : x.data ++ '.' :: t = c.data ++ '.' :: (' ' :: rest) := by
          simpa using ht.symm
        have hxc : x.data = c.data :=
          dot_split_unique x.data (posCodes_no_dot x hx) c.data hnd t (' ' :: rest) hx2
        rw [str_data_inj hxc]
        simp [hlead]
      · simp only [Bool.not_eq_true] at hlx
        simp [hlx] at hsx
  have hdrop : (c.data ++ '.' :: ' ' :: rest).drop (c.data.length + 1) = ' ' :: rest := by
    rw [hassoc]
    have hlen : (c.data ++ ['.']).length = c.data.length + 1 := by simp
    rw [← hlen, List.drop_left]
  unfold posSplitL
  rw [hfind]
  show (c ++ ".", group2 ((c.data ++ '.' :: ' ' :: rest).drop (c.data.length + 1)))
      = (c ++ ".", (rest.dropWhile pyWs).takeWhile (fun ch => ch != '\n'))
  rw [hdrop]
  unfold group2
  rw [List.dropWhile_cons]
  simp [pyWs]

/-- Witness for C5: the line `"vt. run"` is classified as `"vt."` + `"run"`
even though `"v"` comes earlier in the alternation. -/
theorem claim5_pos_longest_match_witness :
    posSplitL ("vt".data ++ '.' :: ' ' :: "run".data)
      = ("vt" ++ ".", ("run".data.dropWhile pyWs).takeWhile (fun ch => ch != '\n')) ∧
    posSplitL "vt. run".data = ("vt.", "run".data) :=
  ⟨claim5_pos_longest_match "vt" "run".data (by decide), by decide⟩

/-- C6 counterexample: when exchange code `"1"` carries several values, as
in `"0:run/1:d/1:p"`, the code decodes every value (`"d"` and `"p"`, giving
`过去分词和过去式`), not only the first value as the claim states
(`过去分词` alone); the two renderings differ. -/
theorem claim6_counterexample :
    parseExchange "0:run/1:d/1:p" = some [("0", "run"), ("1", "d"), ("1", "p")] ∧
    ormText "x" [("0", "run"), ("1", "d"), ("1", "p")] = "x 是 run 的过去分词和过去式" ∧
    ormTextFirstValueOnly "x" [("0", "run"), ("1", "d"), ("1", "p")]
      = "x 是 run 的过去分词" ∧
    ormText "x" [("0", "run"), ("1", "d"), ("1", "p")]
      ≠ ormTextFirstValueOnly "x" [("0", "run"), ("1", "d"), ("1", "p")] := by
  refine ⟨by decide, by decide, by decide, by decide⟩

/-- C6 amended.  Base-form reference sub-block, for a row with non-empty
exchange whose exchange string parses to `segs`: the sub-block is present
iff both codes `"0"` and `"1"` exist; when present it is the `div.orb` whose
`span.orm` text is `ormText`; the label list decodes EVERY value of code
`"1"` character by character (p→过去式, d→过去分词, i→现在分词,
3→第三人称单数, r→比较级, t→最高级, s→复数形式), concatenated across values
in order; joined with `"和"`, the text is
`"<word> 是 <first value of code 0> 的<labels>"` when the label list is
non-empty and `"<word> 的原型是 <first value of code 0>"` otherwise. -/
theorem claim6_base_form (r : DictRow) (segs : List (String × String))
    (_hx : r.exchange ≠ "") (_hp : parseExchange r.exchange = some segs) :
    (baseNodes r.word segs ≠ [] ↔
      (hasCode segs "0" = true ∧ hasCode segs "1" = true)) ∧
    (hasCode segs "0" = true → hasCode segs "1" = true →
      baseNodes r.word segs
        = [.tag "div" [("class", "orb")]
            [.tag "span" [("class", "onm")] [.text "原型:"],
             .tag "span" [("class", "orm")] [.text (ormText r.word segs)]]]) ∧
    (whatList segs
        = ((exchangeValues segs "1").map (fun v => v.data.filterMap decodeChar)).flatten) ∧
    (whatList segs ≠ [] →
      ormText r.word segs
        = r.word ++ " 是 " ++ (exchangeValues segs "0").headD ""
            ++ " 的" ++ pyJoin "和" (whatList segs)) ∧
    (whatList segs = [] →
      ormText r.word segs
        = r.word ++ " 的原型是 " ++ (exchangeValues segs "0").headD "") := by
  refine ⟨?_, ?_, rfl, ?_, ?_⟩
  · by_cases h : hasCode segs "0" = true ∧ hasCode segs "1" = true
    · simp [baseNodes, h.1, h.2]
    · rw [Decidable.not_and_iff_or_not] at h
      cases h with
      | inl h0 => simp only [Bool.not_eq_true] at h0; simp [baseNodes, h0]
      | inr h1 => simp only [Bool.not_eq_true] at h1; simp [baseNodes, h1]
  · intro h0 h1
    simp [baseNodes, h0, h1]
  · intro hwl
    have hne : pyJoin "和" (whatList segs) ≠ "" :=
      pyJoin_ne_empty "和" (whatList segs) (whatList_mem_ne_empty segs) hwl
    simp [ormText, hne]
  · intro hwl
    simp [ormText, hwl, pyJoin]

/-- Witness for the amended C6: the spec's own example, exchange
`"0:run/1:d"` on word `"ran"`; the rendered text contains `"过去分词"` and
references `"run"`. -/
theorem claim6_base_form_witness :
    baseNodes "ran" [("0", "run"), ("1", "d")]
      = [.tag "div" [("class", "orb")]
          [.tag "span" [("class", "onm")] [.text "原型:"],
           .tag "span" [("class", "orm")]
             [.text (ormText "ran" [("0", "run"), ("1", "d")])]]] ∧
    ormText "ran" [("0", "run"), ("1", "d")] = "ran 是 run 的过去分词" ∧
    hasSub "过去分词".data (ormText "ran" [("0", "run"), ("1", "d")]).data = true ∧
    hasSub "run".data (ormText "ran" [("0", "run"), ("1", "d")]).data = true := by
  have h := claim6_base_form
    ⟨"ran", "", "", "", 0, 0, "", 0, 0, "0:run/1:d"⟩
    [("0", "run"), ("1", "d")] (by decide) (by decide)
  exact ⟨h.2.1 (by decide) (by decide), by decide, by decide, by decide⟩

/-- C7 counterexample: `lstrip("[网络]")` strips the character SET
`{[, 网, 络, ]}`, not the marker prefix: on the line `"[网络]网网ad"` the
rendered `dne` text is `"ad"`, while removing only the marker from the front
would leave `"网网ad"` (or `"网ad"` under the claim's five-character
reading); they differ. -/
theorem claim7_counterexample :
    transLineNode "[网络]网网ad".data
      = .tag "span" [("class", "dcb")]
          [.tag "span" [("class", "dnt")] [.text "[网络]"],
           .tag "span" [("class", "dne")] [.text "ad"]] ∧
    ("ad" : String) ≠ "网网ad" ∧ ("ad" : String) ≠ "网ad" := by
  refine ⟨rfl, by decide, by decide⟩

/-- C7 amended.  Web-marker handling: a translation line whose gloss text
(the text after the pos split) starts with `"[网络]"` renders as the
web-sourced sub-entry — `span.dnt` label instead of a pos label — and its
`dne` text is the gloss text with ALL leading characters drawn from the set
`{[, 网, 络, ]}` removed (Python `lstrip` set semantics), not just the
marker. -/
theorem claim7_web_marker (trans : List Char)
    (h : hasLead webChars (posSplitL trans).2 = true) :
    transLineNode trans
      = .tag "span" [("class", "dcb")]
          [.tag "span" [("class", "dnt")] [.text "[网络]"],
           .tag "span" [("class", "dne")]
             [.text ((posSplitL trans).2.dropWhile
                 (fun c => webChars.contains c)).asString]] := by
  unfold transLineNode
  simp [h]

/-- Witness for the amended C7: the line `"[网络]x"`. -/
theorem claim7_web_marker_witness :
    transLineNode "[网络]x".data
      = .tag "span" [("class", "dcb")]
          [.tag "span" [("class", "dnt")] [.text "[网络]"],
           .tag "span" [("class", "dne")]
             [.text ((posSplitL "[网络]x".data).2.dropWhile
                 (fun c => webChars.contains c)).asString]] ∧
    ((posSplitL "[网络]x".data).2.dropWhile
        (fun c => webChars.contains c)).asString = "x" :=
  ⟨claim7_web_marker "[网络]x".data (by decide), by decide⟩

/-- C8. Header block gating and marker counts: the header block is absent
for `phonetic = ""`, `collins = 0`, `oxford = 0`; in general it is absent
iff all three are falsy; and when all three are set it is the `div.git`
containing the phonetic in brackets, the `※` marker repeated `oxford`
times, and the `★` marker repeated `collins` times. -/
theorem claim8_header_gating :
    gitNodes "" 0 0 = [] ∧
    (∀ (p : String) (c o : Nat),
      gitNodes p c o = [] ↔ (p = "" ∧ c = 0 ∧ o = 0)) ∧
    (∀ (p : String) (c o : Nat), p ≠ "" → c ≠ 0 → o ≠ 0 →
      gitNodes p c o
        = [.tag "div" [("class", "git")]
            [.tag "span" [("class", "ipa")] [.text ("[" ++ p ++ "]")],
             .tag "span" [("class", "hnt")] [.text "-"],
             .tag "span" [("class", "oxf"), ("title", "Oxford 3000 Keywords")]
               [.text (strRep o "※")],
             .tag "span" [("class", "col"), ("title", "Collins Stars")]
               [.text (strRep c "★")]]]) := by
  refine ⟨rfl, ?_, ?_⟩
  · intro p c o
    by_cases hp : p = "" <;> by_cases hc : c = 0 <;> by_cases ho : o = 0 <;>
      simp [gitNodes, hp, hc, ho]
  · intro p c o hp hc ho
    simp [gitNodes, hp, hc, ho]

/-- Witness for C8: phonetic `"kæt"`, collins 3, oxford 1 — one `※`, three
`★`, bracketed phonetic. -/
theorem claim8_header_gating_witness :
    gitNodes "kæt" 3 1
      = [.tag "div" [("class", "git")]
          [.tag "span" [("class", "ipa")] [.text ("[" ++ "kæt" ++ "]")],
           .tag "span" [("class", "hnt")] [.text "-"],
           .tag "span" [("class", "oxf"), ("title", "Oxford 3000 Keywords")]
             [.text (strRep 1 "※")],
           .tag "span" [("class", "col"), ("title", "Collins Stars")]
             [.text (strRep 3 "★")]]] ∧
    strRep 1 "※" = "※" ∧ strRep 3 "★" = "★★★" :=
  ⟨claim8_header_gating.2.2 "kæt" 3 1 (by decide) (by decide) (by decide),
   by decide, by decide⟩

/-- C9. Exchange parse failure: for a row with non-empty exchange, if some
`/`-delimited segment has no `:` then `generate_html` fails (the
`ValueError` from the tuple unpacking propagates, nothing is guessed); if
every segment has a `:`, parsing succeeds and the renderer returns a
document. -/
theorem claim9_exchange_parse (r : DictRow) (hx : r.exchange ≠ "") :
    ((∃ seg ∈ splitOnL ['/'] r.exchange.data, ∀ ch ∈ seg, ch ≠ ':') →
      generateHtmlTree r = none) ∧
    ((∀ seg ∈ splitOnL ['/'] r.exchange.data, ∃ ch ∈ seg, ch = ':') →
      (generateHtmlTree r).isSome = true) := by
  constructor
  · rintro ⟨seg, hseg, hcol⟩
    have h1 : splitColon1 seg = none := (splitColon1_eq_none_iff seg).mpr hcol
    have h2 : parseExchange r.exchange = none := by
      unfold parseExchange
      exact (parseSegs_eq_none_iff _).mpr ⟨seg, hseg, h1⟩
    simp [generateHtmlTree, gfmNodes, hx, h2]
  · intro hall
    have hnone : ∀ seg ∈ splitOnL ['/'] r.exchange.data, splitColon1 seg ≠ none := by
      intro seg hseg hn
      obtain ⟨ch, hch, hcheq⟩ := hall seg hseg
      exact ((splitColon1_eq_none_iff seg).mp hn ch hch) hcheq
    cases hpe : parseExchange r.exchange with
    | none =>
      exfalso
      unfold parseExchange at hpe
      obtain ⟨seg, hseg, hn⟩ := (parseSegs_eq_none_iff _).mp hpe
      exact hnone seg hseg hn
    | some segs => simp [generateHtmlTree, gfmNodes, hx, hpe]

/-- Witness for C9: exchange `"ab"` (no colon) makes rendering fail;
exchange `"0:run"` renders a document. -/
theorem claim9_exchange_parse_witness :
    generateHtmlTree ⟨"w", "", "", "", 0, 0, "", 0, 0, "ab"⟩ = none ∧
    (generateHtmlTree ⟨"w", "", "", "", 0, 0, "", 0, 0, "0:run"⟩).isSome = true :=
  ⟨(claim9_exchange_parse ⟨"w", "", "", "", 0, 0, "", 0, 0, "ab"⟩ (by decide)).1
      (by decide),
   (claim9_exchange_parse ⟨"w", "", "", "", 0, 0, "", 0, 0, "0:run"⟩ (by decide)).2
      (by decide)⟩

/-- C10. Literal line delimiter: the gloss-line split is on the two-character
literal `"\n"` (backslash, `n`), not on U+000A; a field containing a real
newline but no such literal yields a single gloss line — a single `dcb`
sub-entry in the translation and definition renderings, and a single line
examined by the reverse-entry loop. -/
theorem claim10_literal_newline (s : String) (hnl : '\n' ∈ s.data)
    (hlit : hasSub nlLit s.data = false) :
    splitOnL nlLit s.data = [s.data] ∧
    transGdc s = .tag "div" [("class", "gdc")] [transLineNode s.data, .void "br" []] ∧
    defGdc s = .tag "div" [("class", "gdc")] [defLineNode s.data, .void "br" []] ∧
    (∀ r : DictRow, r.translation = s →
      reverseDocs r
        = (if hasChinese s.data then [synthDoc r s.data] else [])) := by
  have hsplit : splitOnL nlLit s.data = [s.data] := splitOnL_no_occ nlLit s.data hlit
  refine ⟨hsplit, ?_, ?_, ?_⟩
  · unfold transGdc
    rw [hsplit]
    simp
  · unfold defGdc
    rw [hsplit]
    simp
  · intro r hr
    have hs : s ≠ "" := by
      intro h
      rw [h] at hnl
      simp at hnl
    unfold reverseDocs
    rw [hr, if_neg hs, hsplit]
    by_cases hch : hasChinese s.data = true
    · simp [hch, List.filterMap_cons, generateHtmlTree_synth r s.data, synthDoc]
    · simp only [Bool.not_eq_true] at hch
      simp [hch, List.filterMap_cons]

/-- Witness for C10: the field `"a\nb"` (a real newline, no literal
backslash-n) is one gloss line; it has no Chinese codepoint, so it yields no
reverse document. -/
theorem claim10_literal_newline_witness :
    splitOnL nlLit "a\nb".data = ["a\nb".data] ∧
    transGdc "a\nb"
      = .tag "div" [("class", "gdc")] [transLineNode "a\nb".data, .void "br" []] ∧
    reverseDocs ⟨"w", "", "d", "a\nb", 0, 0, "", 0, 0, ""⟩ = [] := by
  have h := claim10_literal_newline "a\nb" (by decide) (by decide)
  refine ⟨h.1, h.2.1, ?_⟩
  rw [h.2.2.2 ⟨"w", "", "d", "a\nb", 0, 0, "", 0, 0, ""⟩ rfl]
  have hch : hasChinese "a\nb".data = false := by decide
  simp [hch]

end ECCEDICT
